import Mathlib

/-!
# Adaptive Wiener filter (`AdaptativeWienerFilter.cxx`)

A shallow embedding of the filter core of `AdaptativeWienerFilter.cxx`:
the neighbourhood enumerator `getDynamicNeighborhood`, the sampling routine
`getPixelValuesFromNeighborhood`, the statistics estimator `setMeanAndVariance`
and the body of the filter loop of `main`.

Conventions of the embedding

* `PixelType = float` is read as exact arithmetic over `ℚ`.
* A floating-point division is a guarded division `gdiv`: it yields `none`
  when the divisor is zero (where the program produces an infinity or a NaN).
* `int` is read as `Int`.  The counters of `getDynamicNeighborhood` stay in
  `[-radius, radius + 1]`, and a vector of `(2 * radius + 1) ^ 2` offsets is
  built long before a counter could leave the range of a 32-bit `int`.
* `std::vector` is a `List`; `push_back` appends at the end.
* Reference parameters are passed in and returned (state passing).
-/

namespace AdaptativeWienerFilter

/-! ## Data model -/

/-- The type `PixelType` of the source (line 50), read as exact rationals. -/
abbrev PixelType := ℚ

/-- The type `NeighborhoodIteratorType::OffsetType`: the offset of a three-dimensional
image (`ImageType = itk::Image<PixelType, 3>`, line 51), three integer
components. -/
structure OffsetType where
  x : Int
  y : Int
  z : Int
  deriving DecidableEq, Repr

/-- The type `ImageType::IndexType`: the position of a voxel of a three-dimensional
image. -/
structure IndexType where
  x : Int
  y : Int
  z : Int
  deriving DecidableEq, Repr

/-- The position `p + o`. -/
def IndexType.add (p : IndexType) (o : OffsetType) : IndexType :=
  ⟨p.x + o.x, p.y + o.y, p.z + o.z⟩

/-- The type `ImageType` (line 51): a dense three-dimensional image, given by its size
along each axis and the sample stored at each position.  The region starts at
index `(0, 0, 0)`. -/
structure ImageType where
  sx : Nat
  sy : Nat
  sz : Nat
  pix : IndexType → PixelType

/-- The position `p` lies inside the extent of `img`. -/
def ImageType.inside (img : ImageType) (p : IndexType) : Prop :=
  0 ≤ p.x ∧ p.x < img.sx ∧ 0 ≤ p.y ∧ p.y < img.sy ∧ 0 ≤ p.z ∧ p.z < img.sz

instance (img : ImageType) (p : IndexType) : Decidable (img.inside p) := by
  unfold ImageType.inside; infer_instance

/-! ## Control flow -/

/-- The loop `for (int i = start; i <= hi; ++i) body`, run on the state `s`
for at most `fuel` iterations. -/
def forLoop {σ : Type} (body : σ → Int → σ) (hi : Int) : Nat → Int → σ → σ
  | 0, _, s => s
  | fuel + 1, i, s => if i ≤ hi then forLoop body hi fuel (i + 1) (body s i) else s

/-- The loop `for (int i = lo; i <= hi; ++i) body` run to completion: its
trip count is `hi + 1 - lo` (none when `hi < lo`). -/
def forUpTo {σ : Type} (lo hi : Int) (s : σ) (body : σ → Int → σ) : σ :=
  forLoop body hi (hi + 1 - lo).toNat lo s

/-- Guarded division: `none` when the divisor is zero. -/
def gdiv (a b : PixelType) : Option PixelType :=
  if b = 0 then none else some (a / b)

/-- The call `std::accumulate(first, last, init)`: the left fold of `+` from `init`. -/
def accumulate (v : List PixelType) (init : PixelType) : PixelType :=
  v.foldl (fun acc a => acc + a) init

/-! ## The functions of the source -/

/-- The function `getDynamicNeighborhood` (lines 330-338).  `{ { i, j } }` initialises the
first two components of the three-component offset; the third one is
value-initialised to `0`. -/
def getDynamicNeighborhood (radius : Int) : List OffsetType :=
  forUpTo (-1 * radius) radius [] fun neighbors i =>
    forUpTo (-1 * radius) radius neighbors fun neighbors j =>
      neighbors ++ [⟨i, j, 0⟩]

/-- The component `v` of a position clamped to the valid range `[0, size - 1]`
of an axis. -/
def clampAxis (v : Int) (size : Nat) : Int :=
  max 0 (min v ((size : Int) - 1))

/-- Modelled from the spec: the boundary condition of the library iterator
(`itk::ConstNeighborhoodIterator` with its default boundary condition, not
part of the source file).  Spec 4.2, policy (a): a position outside the extent
is clamped to the nearest valid voxel. -/
def clampIndex (img : ImageType) (p : IndexType) : IndexType :=
  ⟨clampAxis p.x img.sx, clampAxis p.y img.sy, clampAxis p.z img.sz⟩

/-- The type `NeighborhoodIteratorType` (line 54): the input image and the position of
the voxel the iterator stands on. -/
structure NeighborhoodIteratorType where
  image : ImageType
  pos : IndexType

/-- Modelled from the spec: `it.GetPixel(offset)` of the library iterator
(not part of the source file).  Spec 4.2: the sample of the input image at
`center + offset`, an out-of-extent position being replaced by the boundary
policy `clampIndex`. -/
def NeighborhoodIteratorType.GetPixel (it : NeighborhoodIteratorType)
    (o : OffsetType) : PixelType :=
  it.image.pix (clampIndex it.image (it.pos.add o))

/-- Modelled from the spec: `it.GetCenterPixel()` of the library iterator
(not part of the source file).  Spec 4.4: the input pixel at the voxel under
consideration. -/
def NeighborhoodIteratorType.GetCenterPixel (it : NeighborhoodIteratorType) :
    PixelType :=
  it.image.pix it.pos

/-- The function `getPixelValuesFromNeighborhood` (lines 305-311). -/
def getPixelValuesFromNeighborhood (vector : List OffsetType)
    (it : NeighborhoodIteratorType) : List PixelType :=
  vector.foldl (fun pixelValues n => pixelValues ++ [it.GetPixel n]) []

/-- The function `setMeanAndVariance` (lines 266-280).  The reference parameter `mean` is
passed in (the caller leaves it uninitialised) and returned with `variance`.
The division of line 271 is guarded by `n != 0` in the source; the division of
line 278 is not, and is a guarded division here: the result is `none` when
`n = 0`. -/
def setMeanAndVariance (vector : List PixelType) (mean : PixelType) :
    Option (PixelType × PixelType) :=
  let n := vector.length
  let mean := if n ≠ 0 then accumulate vector 0 / (n : PixelType) else mean
  let meanSubstractedS2 :=
    vector.foldl (fun acc n => acc ++ [(n - mean) ^ 2]) ([] : List PixelType)
  (gdiv (accumulate meanSubstractedS2 0) (n : PixelType)).map fun variance =>
    (mean, variance)

/-- The attenuation factor `(variance - noiseVariance) / variance` of line
197, with guarded division. -/
def attenuation (variance noiseVariance : PixelType) : Option PixelType :=
  gdiv (variance - noiseVariance) variance

/-- The expression of line 197,
`mean + ((variance - noiseVariance)/variance)*(currentPixel - mean)`. -/
def weiner (mean variance noiseVariance currentPixel : PixelType) :
    Option PixelType :=
  (attenuation variance noiseVariance).map fun factor =>
    mean + factor * (currentPixel - mean)

/-- The body of the filter loop of `main` (lines 192-198) with the iterator
`it` standing on a voxel: the value handed to `out.Set`, or `none` when a
division by zero occurs.  `uninit` is the content of the uninitialised local
`mean` of line 192. -/
def loopBody (windowRadio : Int) (noiseVariance : PixelType)
    (it : NeighborhoodIteratorType) (uninit : PixelType) : Option PixelType :=
  let neighborhood := getDynamicNeighborhood windowRadio
  let pixelValues := getPixelValuesFromNeighborhood neighborhood it
  match setMeanAndVariance pixelValues uninit with
  | none => none
  | some (mean, variance) =>
    let currentPixel := it.GetCenterPixel
    weiner mean variance noiseVariance currentPixel

/-- Modelled from the spec: the traversal of the library region iterators
(`GoToBegin`, `++` and `IsAtEnd`, not part of the source file).  Spec 4.5: the
positions of the region of `img`, each visited once, in the row-major order of
the image storage, `x` fastest and `z` slowest. -/
def regionPositions (img : ImageType) : List IndexType :=
  (List.range img.sz).flatMap fun (k : Nat) =>
    (List.range img.sy).flatMap fun (j : Nat) =>
      (List.range img.sx).map fun (i : Nat) => ⟨(i : Int), (j : Int), (k : Int)⟩

/-- The filter loop of `main` (lines 190-199): the input iterator `it` and the
output iterator `out` move in lock-step over the region; the result is the
sequence of writes `out.Set(weiner)`, each with the position written. -/
def filterLoop (img : ImageType) (windowRadio : Int) (noiseVariance : PixelType)
    (uninit : PixelType) : List (IndexType × Option PixelType) :=
  (regionPositions img).foldl
    (fun out p => out ++ [(p, loopBody windowRadio noiseVariance ⟨img, p⟩ uninit)]) []

/-- The `5 x 5` single-slice image whose samples are `10` except for the
centre pixel `(2, 2)`, which is `100`. -/
def outlier5 : ImageType :=
  ⟨5, 5, 1, fun p => if p.x = 2 ∧ p.y = 2 then 100 else 10⟩

/-- The exit status `EXIT_SUCCESS` of the C library. -/
def EXIT_SUCCESS : Int := 0

/-- The exit status `EXIT_FAILURE` of the C library (`1` on the usual
platforms). -/
def EXIT_FAILURE : Int := 1

/-- The collaborators of `main` that are not part of the source file: the
image reader (`none` when `reader->Update()` throws), the construction of the
neighbourhood iterator from the converted radius (lines 133-136,
`radius.Fill(windowRadio)` and the constructor of `it`; `false` when the
library does not complete it), the allocation of the output image and of its
iterator (lines 146-150; `false` when it does not complete), the rescaler and
writer (`false` when `writer->Update()` throws), the C library conversions
`atoi` and `atof`, and the content of the uninitialised local `mean`. -/
structure Collaborators where
  reader : String → Option ImageType
  neighborhoodIterator : Int → ImageType → Bool
  allocateOutput : ImageType → Bool
  writer : String → List (IndexType × Option PixelType) → Bool
  atoi : String → Int
  atof : String → PixelType
  uninit : PixelType

/-- What a run of `main` did: the exit status returned (`none` when `main`
does not return, the run being ended by an exception thrown outside the two
`try` blocks), whether the reader and the writer were invoked, and the writes
of the filter loop. -/
structure Outcome where
  exitStatus : Option Int
  readerInvoked : Bool
  filtered : List (IndexType × Option PixelType)
  writerInvoked : Bool

/-- The function `main` (lines 66-260); `argc` is the length of `argv`. -/
def main (env : Collaborators) (argv : List String) : Outcome :=
  let argc := argv.length
  if argc < 5 then
    ⟨some EXIT_FAILURE, false, [], false⟩
  else
    match env.reader (argv.getD 1 "") with
    | none => ⟨some EXIT_FAILURE, true, [], false⟩
    | some input =>
      let windowRadio := env.atoi (argv.getD 3 "")
      let noiseVariance := env.atof (argv.getD 4 "")
      if !env.neighborhoodIterator windowRadio input then
        ⟨none, true, [], false⟩
      else if !env.allocateOutput input then
        ⟨none, true, [], false⟩
      else
        let output := filterLoop input windowRadio noiseVariance env.uninit
        if env.writer (argv.getD 2 "") output then
          ⟨some EXIT_SUCCESS, true, output, true⟩
        else
          ⟨some EXIT_FAILURE, true, output, true⟩

/-- The white-space characters of the C library (`isspace`). -/
def isspace (c : Char) : Bool :=
  c = ' ' || (9 ≤ c.toNat && c.toNat ≤ 13)

/-- The value of the decimal digits `cs`, read after the value `acc`. -/
def digitsValue (cs : List Char) (acc : Nat) : Nat :=
  cs.foldl (fun acc c => 10 * acc + (c.toNat - 48)) acc

/-- Modelled from the spec: the parse of `windowRadius` (spec 6, an integer),
done by the C library function `atoi` (line 131, not part of the source
file): leading white space, an optional sign and the longest run of decimal
digits are read; text without such a start reads as `0`. -/
def atoi (s : String) : Int :=
  match s.toList.dropWhile isspace with
  | '-' :: rest => -((digitsValue (rest.takeWhile Char.isDigit) 0 : Nat) : Int)
  | '+' :: rest => ((digitsValue (rest.takeWhile Char.isDigit) 0 : Nat) : Int)
  | cs => ((digitsValue (cs.takeWhile Char.isDigit) 0 : Nat) : Int)

/-- The value of an unsigned plain decimal numeral `digits [. digits]` at the
start of `cs`. -/
def decimalValue (cs : List Char) : PixelType :=
  let whole := cs.takeWhile Char.isDigit
  match cs.dropWhile Char.isDigit with
  | '.' :: rest =>
    let frac := rest.takeWhile Char.isDigit
    (digitsValue frac (digitsValue whole 0) : PixelType) / (10 : PixelType) ^ frac.length
  | _ => (digitsValue whole 0 : PixelType)

/-- Modelled from the spec: the parse of `noiseVariance` (spec 6, a number),
done by the C library function `atof` (line 132, not part of the source
file), on plain decimal numerals: leading white space, an optional sign,
digits and an optional fraction are read (an exponent is not); text without
such a start reads as `0`. -/
def atof (s : String) : PixelType :=
  match s.toList.dropWhile isspace with
  | '-' :: rest => -(decimalValue rest)
  | '+' :: rest => decimalValue rest
  | cs => decimalValue cs

/-- Modelled from the spec: a well-formed `windowRadius` argument (spec 6), the
decimal numeral of a non-negative integer. -/
def wellFormedRadius (s : String) : Bool :=
  !s.toList.isEmpty && s.toList.all Char.isDigit

/-- A run environment: the reader returns the image `outlier5` for every path,
the neighbourhood iterator is built for every non-negative radius (and is
taken not to be for a negative one), the output is allocated and the writer
succeeds. -/
def cli0 : Collaborators :=
  ⟨fun _ => some outlier5, fun r _ => decide (0 ≤ r), fun _ => true, fun _ _ => true,
    atoi, atof, 0⟩

/-- The trip count of each of the two loops of `getDynamicNeighborhood`, from
`-1 * radius` to `radius` inclusive (`0` for a negative radius). -/
def side (radius : Int) : Nat := (radius + 1 - -1 * radius).toNat

/-- The sample vector the filter loop gathers at the voxel `p` (lines
193-194). -/
def samplesAt (img : ImageType) (windowRadio : Int) (p : IndexType) : List PixelType :=
  getPixelValuesFromNeighborhood (getDynamicNeighborhood windowRadio) ⟨img, p⟩

/-- The full cubic neighbourhood of radius `r` around `p` lies inside `img`. -/
def cubeInside (img : ImageType) (r : Int) (p : IndexType) : Prop :=
  0 ≤ p.x - r ∧ p.x + r < img.sx ∧ 0 ≤ p.y - r ∧ p.y + r < img.sy ∧
    0 ≤ p.z - r ∧ p.z + r < img.sz

instance (img : ImageType) (r : Int) (p : IndexType) : Decidable (cubeInside img r p) := by
  unfold cubeInside; infer_instance

/-- A `3 x 3 x 3` image whose sample at `(x, y, z)` is `x + 3 y + 9 z`. -/
def cube3 : ImageType :=
  ⟨3, 3, 3, fun p => ((p.x + 3 * p.y + 9 * p.z : Int) : PixelType)⟩

/-- The image `outlier5` with the corner pixel `(0, 0)` changed to `55`. -/
def outlier5Corner : ImageType :=
  ⟨5, 5, 1, fun p => if p.x = 0 ∧ p.y = 0 then 55 else outlier5.pix p⟩

/-- The image `cube3` with every sample outside the slice `z = 1` replaced by
`1000`. -/
def cube3Slice : ImageType :=
  ⟨3, 3, 3, fun p => if p.z = 1 then cube3.pix p else 1000⟩

/-! ## Loops as folds -/

theorem forLoop_eq_foldl {σ : Type} (body : σ → Int → σ) (hi : Int) :
    ∀ (fuel : Nat) (i : Int) (s : σ), (hi + 1 - i).toNat ≤ fuel →
      forLoop body hi fuel i s =
        (List.range (hi + 1 - i).toNat).foldl (fun s (k : Nat) => body s (i + (k : Int))) s := by
  intro fuel
  induction fuel with
  | zero =>
    intro i s h
    have h0 : (hi + 1 - i).toNat = 0 := by omega
    simp [forLoop, h0]
  | succ fuel ih =>
    intro i s h
    unfold forLoop
    by_cases hle : i ≤ hi
    · rw [if_pos hle, ih (i + 1) (body s i) (by omega)]
      have hn : (hi + 1 - i).toNat = (hi + 1 - (i + 1)).toNat + 1 := by omega
      rw [hn, List.range_succ_eq_map, List.foldl_cons, List.foldl_map]
      simp only [Nat.cast_zero, add_zero, Nat.cast_succ]
      congr 1
      funext s k
      congr 1
      ring
    · rw [if_neg hle]
      have h0 : (hi + 1 - i).toNat = 0 := by omega
      simp [h0]

/-- The trip count chosen by `forUpTo` is enough: more fuel gives the same
final state, so the loop has left through its exit test. -/
theorem forLoop_fuel_stable {σ : Type} (body : σ → Int → σ) (lo hi : Int) (s : σ)
    (extra : Nat) :
    forLoop body hi ((hi + 1 - lo).toNat + extra) lo s = forUpTo lo hi s body := by
  unfold forUpTo
  rw [forLoop_eq_foldl body hi _ lo s (by omega), forLoop_eq_foldl body hi _ lo s le_rfl]

theorem forUpTo_eq_foldl {σ : Type} (body : σ → Int → σ) (lo hi : Int) (s : σ) :
    forUpTo lo hi s body =
      (List.range (hi + 1 - lo).toNat).foldl (fun s (k : Nat) => body s (lo + (k : Int))) s :=
  forLoop_eq_foldl body hi _ lo s le_rfl

theorem foldl_push_eq_map {α β : Type} (f : α → β) (l : List α) (init : List β) :
    l.foldl (fun acc a => acc ++ [f a]) init = init ++ l.map f := by
  induction l generalizing init with
  | nil => simp
  | cons a l ih => simp [ih]

theorem foldl_append_eq_flatMap {α β : Type} (g : α → List β) (l : List α)
    (init : List β) :
    l.foldl (fun acc a => acc ++ g a) init = init ++ l.flatMap g := by
  induction l generalizing init with
  | nil => simp
  | cons a l ih => simp [ih]

theorem getDynamicNeighborhood_eq_flatMap (radius : Int) :
    getDynamicNeighborhood radius =
      (List.range (side radius)).flatMap fun (a : Nat) =>
        (List.range (side radius)).map fun (b : Nat) =>
          (⟨-1 * radius + (a : Int), -1 * radius + (b : Int), 0⟩ : OffsetType) := by
  unfold getDynamicNeighborhood
  rw [forUpTo_eq_foldl]
  simp only [forUpTo_eq_foldl, foldl_push_eq_map]
  rw [foldl_append_eq_flatMap]
  simp [side]

theorem flatMap_range_eq_map {β : Type} (f : Nat → Nat → β) (n : Nat) :
    ∀ m : Nat, ((List.range m).flatMap fun a => (List.range n).map (f a)) =
      (List.range (m * n)).map fun k => f (k / n) (k % n) := by
  intro m
  induction m with
  | zero => simp
  | succ m ih =>
    rw [List.range_succ, List.flatMap_append, ih, Nat.succ_mul, List.range_add,
      List.map_append]
    congr 1
    simp only [List.flatMap_cons, List.flatMap_nil, List.append_nil, List.map_map]
    apply List.map_congr_left
    intro b hb
    have hb' : b < n := List.mem_range.mp hb
    have hn : 0 < n := by omega
    simp only [Function.comp]
    rw [Nat.mul_comm m n, Nat.mul_add_div hn, Nat.mul_add_mod, Nat.div_eq_of_lt hb',
      Nat.mod_eq_of_lt hb']
    simp

theorem getDynamicNeighborhood_eq_map (radius : Int) :
    getDynamicNeighborhood radius =
      (List.range (side radius * side radius)).map fun (k : Nat) =>
        (⟨-1 * radius + ((k / side radius : Nat) : Int),
          -1 * radius + ((k % side radius : Nat) : Int), 0⟩ : OffsetType) := by
  rw [getDynamicNeighborhood_eq_flatMap]
  exact flatMap_range_eq_map
    (fun (a b : Nat) => (⟨-1 * radius + (a : Int), -1 * radius + (b : Int), 0⟩ : OffsetType))
    (side radius) (side radius)

theorem side_eq (radius : Int) (h : 0 ≤ radius) : ((side radius : Nat) : Int) = 2 * radius + 1 := by
  unfold side; omega

theorem length_getDynamicNeighborhood (radius : Int) :
    (getDynamicNeighborhood radius).length = side radius * side radius := by
  rw [getDynamicNeighborhood_eq_map]; simp

/-! ## Sums -/

theorem accumulate_eq_sum (v : List PixelType) (init : PixelType) :
    accumulate v init = init + v.sum := by
  unfold accumulate
  induction v generalizing init with
  | nil => simp
  | cons a v ih => rw [List.foldl_cons, ih, List.sum_cons]; ring

theorem setMeanAndVariance_eq (vector : List PixelType) (uninit : PixelType)
    (h : vector ≠ []) :
    setMeanAndVariance vector uninit =
      some (vector.sum / (vector.length : PixelType),
        (vector.map fun value =>
          (value - vector.sum / (vector.length : PixelType)) ^ 2).sum /
            (vector.length : PixelType)) := by
  have hlen : vector.length ≠ 0 := fun h0 => h (List.length_eq_zero.mp h0)
  have hq : (vector.length : PixelType) ≠ 0 := by exact_mod_cast hlen
  simp only [setMeanAndVariance, gdiv, if_neg hq, ne_eq, hlen, not_false_eq_true, if_true,
    foldl_push_eq_map, accumulate_eq_sum, List.nil_append, zero_add, Option.map_some']

theorem sum_eq_of_forall_eq (c : PixelType) :
    ∀ vector : List PixelType, (∀ v ∈ vector, v = c) →
      vector.sum = (vector.length : PixelType) * c := by
  intro vector
  induction vector with
  | nil => simp
  | cons a l ih =>
    intro h
    rw [List.sum_cons, ih (fun v hv => h v (List.mem_cons_of_mem a hv)),
      h a (List.mem_cons_self a l), List.length_cons]
    push_cast
    ring

theorem setMeanAndVariance_const (vector : List PixelType) (uninit c : PixelType)
    (h : vector ≠ []) (hc : ∀ v ∈ vector, v = c) :
    setMeanAndVariance vector uninit = some (c, 0) := by
  have hlen : vector.length ≠ 0 := fun h0 => h (List.length_eq_zero.mp h0)
  have hq : (vector.length : PixelType) ≠ 0 := by exact_mod_cast hlen
  have hmean : vector.sum / (vector.length : PixelType) = c := by
    rw [sum_eq_of_forall_eq c vector hc]; field_simp
  rw [setMeanAndVariance_eq vector uninit h, hmean]
  have hz : (vector.map fun value => (value - c) ^ 2).sum = 0 := by
    apply List.sum_eq_zero
    intro x hx
    obtain ⟨v, hv, rfl⟩ := List.mem_map.mp hx
    rw [hc v hv]; ring
  rw [hz, zero_div]

/-! ## Sampling and the region -/

theorem getPixelValuesFromNeighborhood_eq_map (vector : List OffsetType)
    (it : NeighborhoodIteratorType) :
    getPixelValuesFromNeighborhood vector it = vector.map it.GetPixel := by
  unfold getPixelValuesFromNeighborhood
  rw [foldl_push_eq_map, List.nil_append]

theorem clampAxis_of_inside (v : Int) (size : Nat) (h0 : 0 ≤ v) (h1 : v < size) :
    clampAxis v size = v := by
  unfold clampAxis; omega

theorem clampAxis_inside (v : Int) (size : Nat) (h : 0 < size) :
    0 ≤ clampAxis v size ∧ clampAxis v size < size := by
  unfold clampAxis; omega

theorem clampIndex_of_inside (img : ImageType) (p : IndexType) (h : img.inside p) :
    clampIndex img p = p := by
  obtain ⟨h1, h2, h3, h4, h5, h6⟩ := h
  cases p
  simp only [clampIndex, IndexType.mk.injEq]
  exact ⟨clampAxis_of_inside _ _ h1 h2, clampAxis_of_inside _ _ h3 h4,
    clampAxis_of_inside _ _ h5 h6⟩

theorem clampIndex_inside (img : ImageType) (p : IndexType)
    (hx : 0 < img.sx) (hy : 0 < img.sy) (hz : 0 < img.sz) :
    img.inside (clampIndex img p) := by
  obtain ⟨a1, a2⟩ := clampAxis_inside p.x img.sx hx
  obtain ⟨b1, b2⟩ := clampAxis_inside p.y img.sy hy
  obtain ⟨c1, c2⟩ := clampAxis_inside p.z img.sz hz
  exact ⟨a1, a2, b1, b2, c1, c2⟩

theorem mem_regionPositions (img : ImageType) (p : IndexType) :
    p ∈ regionPositions img ↔ img.inside p := by
  obtain ⟨px, py, pz⟩ := p
  simp only [regionPositions, List.mem_flatMap, List.mem_map, List.mem_range,
    IndexType.mk.injEq, ImageType.inside]
  constructor
  · rintro ⟨k, hk, j, hj, i, hi, rfl, rfl, rfl⟩
    omega
  · rintro ⟨h1, h2, h3, h4, h5, h6⟩
    refine ⟨pz.toNat, by omega, py.toNat, by omega, px.toNat, by omega, ?_, ?_, ?_⟩ <;> omega

theorem filterLoop_eq_map (img : ImageType) (windowRadio : Int)
    (noiseVariance uninit : PixelType) :
    filterLoop img windowRadio noiseVariance uninit =
      (regionPositions img).map fun p =>
        (p, loopBody windowRadio noiseVariance ⟨img, p⟩ uninit) := by
  unfold filterLoop
  rw [foldl_push_eq_map, List.nil_append]

theorem mem_filterLoop (img : ImageType) (windowRadio : Int)
    (noiseVariance uninit : PixelType) (p : IndexType) (w : Option PixelType) :
    (p, w) ∈ filterLoop img windowRadio noiseVariance uninit ↔
      img.inside p ∧ w = loopBody windowRadio noiseVariance ⟨img, p⟩ uninit := by
  rw [filterLoop_eq_map, List.mem_map]
  constructor
  · rintro ⟨q, hq, heq⟩
    simp only [Prod.mk.injEq] at heq
    obtain ⟨rfl, rfl⟩ := heq
    exact ⟨(mem_regionPositions img q).mp hq, rfl⟩
  · rintro ⟨hp, rfl⟩
    exact ⟨p, (mem_regionPositions img p).mpr hp, rfl⟩

theorem side_pos (radius : Int) (h : 0 ≤ radius) : 0 < side radius := by
  unfold side; omega

theorem length_samplesAt (img : ImageType) (windowRadio : Int) (p : IndexType) :
    (samplesAt img windowRadio p).length = side windowRadio * side windowRadio := by
  unfold samplesAt
  rw [getPixelValuesFromNeighborhood_eq_map, List.length_map, length_getDynamicNeighborhood]

theorem samplesAt_ne_nil (img : ImageType) (windowRadio : Int) (p : IndexType)
    (h : 0 ≤ windowRadio) : samplesAt img windowRadio p ≠ [] := by
  intro hnil
  have hlen := length_samplesAt img windowRadio p
  rw [hnil, List.length_nil] at hlen
  have := Nat.mul_pos (side_pos windowRadio h) (side_pos windowRadio h)
  omega

theorem loopBody_eq (windowRadio : Int) (noiseVariance uninit mean variance : PixelType)
    (img : ImageType) (p : IndexType)
    (hs : setMeanAndVariance (samplesAt img windowRadio p) uninit = some (mean, variance)) :
    loopBody windowRadio noiseVariance ⟨img, p⟩ uninit =
      weiner mean variance noiseVariance (img.pix p) := by
  unfold samplesAt at hs
  simp only [loopBody, hs, NeighborhoodIteratorType.GetCenterPixel]

theorem weiner_of_ne_zero (mean variance noiseVariance currentPixel : PixelType)
    (hv : variance ≠ 0) :
    weiner mean variance noiseVariance currentPixel =
      some (mean + ((variance - noiseVariance) / variance) * (currentPixel - mean)) := by
  simp [weiner, attenuation, gdiv, hv]

theorem weiner_zero (mean noiseVariance currentPixel : PixelType) :
    weiner mean 0 noiseVariance currentPixel = none := by
  simp [weiner, attenuation, gdiv]

/-! ## The enumeration order -/

theorem countP_range_eq_one (N k0 : Nat) (h : k0 < N) (p : Nat → Bool)
    (hp : ∀ k, k < N → (p k = true ↔ k = k0)) : (List.range N).countP p = 1 := by
  have hcongr : (List.range N).countP p = (List.range N).countP (fun k => k == k0) := by
    apply List.countP_congr
    intro k hk
    rw [hp k (List.mem_range.mp hk)]
    simp
  rw [hcongr]
  exact List.count_eq_one_of_mem (List.nodup_range N) (List.mem_range.mpr h)

theorem div_mod_unique (n A B k : Nat) (hB : B < n) :
    (k / n = A ∧ k % n = B) ↔ k = A * n + B := by
  have hn : 0 < n := by omega
  constructor
  · rintro ⟨h1, h2⟩
    have := Nat.div_add_mod k n
    rw [h1, h2, Nat.mul_comm] at this
    omega
  · rintro rfl
    constructor
    · rw [Nat.add_comm, Nat.add_mul_div_right _ _ hn, Nat.div_eq_of_lt hB, Nat.zero_add]
    · rw [Nat.add_comm, Nat.add_mul_mod_self_right, Nat.mod_eq_of_lt hB]

theorem getDynamicNeighborhood_getElem? (r : Int) (k : Nat)
    (hk : k < side r * side r) :
    (getDynamicNeighborhood r)[k]? =
      some ⟨-1 * r + ((k / side r : Nat) : Int), -1 * r + ((k % side r : Nat) : Int), 0⟩ := by
  rw [getDynamicNeighborhood_eq_map, List.getElem?_map, List.getElem?_range hk]
  rfl

theorem mem_getDynamicNeighborhood (r : Int) (o : OffsetType) :
    o ∈ getDynamicNeighborhood r ↔
      -r ≤ o.x ∧ o.x ≤ r ∧ -r ≤ o.y ∧ o.y ≤ r ∧ o.z = 0 := by
  obtain ⟨ox, oy, oz⟩ := o
  rw [getDynamicNeighborhood_eq_flatMap]
  simp only [List.mem_flatMap, List.mem_map, List.mem_range, OffsetType.mk.injEq, side]
  constructor
  · rintro ⟨a, ha, b, hb, rfl, rfl, rfl⟩
    omega
  · rintro ⟨h1, h2, h3, h4, h5⟩
    refine ⟨(ox + r).toNat, by omega, (oy + r).toNat, by omega, ?_, ?_, ?_⟩ <;> omega

theorem countP_pair_getDynamicNeighborhood (r a b : Int) (hr : 0 ≤ r)
    (ha1 : -r ≤ a) (ha2 : a ≤ r) (hb1 : -r ≤ b) (hb2 : b ≤ r) :
    (getDynamicNeighborhood r).countP (fun o => decide (o.x = a ∧ o.y = b)) = 1 := by
  have hside := side_eq r hr
  rw [getDynamicNeighborhood_eq_map, List.countP_map]
  have hB : (b + r).toNat < side r := by omega
  have hA : (a + r).toNat < side r := by omega
  apply countP_range_eq_one (side r * side r) ((a + r).toNat * side r + (b + r).toNat)
  · calc (a + r).toNat * side r + (b + r).toNat
        < (a + r).toNat * side r + side r := by omega
      _ = ((a + r).toNat + 1) * side r := by ring
      _ ≤ side r * side r := Nat.mul_le_mul_right _ hA
  · intro k _
    rw [← div_mod_unique (side r) _ _ k hB]
    simp only [Function.comp, decide_eq_true_eq]
    omega

/-! ## The claims -/

/-- C1: with `mean` and `variance` the results of `setMeanAndVariance` on the
sample vector of a voxel `p` of the image and `variance ≠ 0`, the filter loop
stores at `p` the value
`mean + ((variance - noiseVariance) / variance) * (centerValue - mean)`, where
`centerValue` is the input pixel at `p`, and stores nothing else there. -/
theorem C1_filterLoop_stores_wiener (img : ImageType) (windowRadio : Int)
    (noiseVariance uninit mean variance : PixelType) (p : IndexType)
    (hp : img.inside p)
    (hs : setMeanAndVariance (samplesAt img windowRadio p) uninit = some (mean, variance))
    (hv : variance ≠ 0) :
    ∀ w : Option PixelType,
      (p, w) ∈ filterLoop img windowRadio noiseVariance uninit ↔
        w = some (mean + ((variance - noiseVariance) / variance) * (img.pix p - mean)) := by
  intro w
  rw [mem_filterLoop, loopBody_eq windowRadio noiseVariance uninit mean variance img p hs,
    weiner_of_ne_zero _ _ _ _ hv]
  exact ⟨fun h => h.2, fun h => ⟨hp, h⟩⟩

theorem samplesAt_cube3 :
    samplesAt cube3 1 ⟨0, 1, 1⟩ = [9, 12, 15, 9, 12, 15, 10, 13, 16] := by
  simp [samplesAt, getPixelValuesFromNeighborhood, getDynamicNeighborhood, forUpTo, forLoop,
    NeighborhoodIteratorType.GetPixel, clampIndex, clampAxis, IndexType.add, cube3]
  norm_num

theorem setMeanAndVariance_cube3 :
    setMeanAndVariance (samplesAt cube3 1 ⟨0, 1, 1⟩) 0 = some (37 / 3, 56 / 9) := by
  rw [samplesAt_cube3, setMeanAndVariance_eq _ 0 (by simp)]
  norm_num

theorem C1_filterLoop_stores_wiener_witness :
    cube3.inside ⟨0, 1, 1⟩ ∧
      setMeanAndVariance (samplesAt cube3 1 ⟨0, 1, 1⟩) 0 = some (37 / 3, 56 / 9) ∧
      (56 / 9 : PixelType) ≠ 0 ∧
      ((⟨0, 1, 1⟩, some (37 / 3 + ((56 / 9 - 1) / (56 / 9)) * (cube3.pix ⟨0, 1, 1⟩ - 37 / 3))) ∈
        filterLoop cube3 1 1 0) :=
  ⟨by decide, setMeanAndVariance_cube3, by norm_num,
    (C1_filterLoop_stores_wiener cube3 1 1 0 (37 / 3) (56 / 9) ⟨0, 1, 1⟩ (by decide)
      setMeanAndVariance_cube3 (by norm_num) _).mpr rfl⟩

/-- C2: on a non-empty sample vector of size `n`, `setMeanAndVariance` sets
`mean` to the sum of the values divided by `n` and `variance` to the sum of the
squared deviations from that mean divided by `n` (not `n - 1`); on
`[2, 4, 4, 4, 5, 5, 7, 9]` this is mean `5` and variance `4`. -/
theorem C2_setMeanAndVariance_population (vector : List PixelType) (uninit : PixelType)
    (h : vector ≠ []) :
    setMeanAndVariance vector uninit =
        some (vector.sum / (vector.length : PixelType),
          (vector.map fun value =>
            (value - vector.sum / (vector.length : PixelType)) ^ 2).sum /
              (vector.length : PixelType)) ∧
      setMeanAndVariance [2, 4, 4, 4, 5, 5, 7, 9] uninit = some (5, 4) := by
  refine ⟨setMeanAndVariance_eq vector uninit h, ?_⟩
  rw [setMeanAndVariance_eq _ uninit (by simp)]
  norm_num

theorem C2_setMeanAndVariance_population_witness :
    ([1, 2, 3] : List PixelType) ≠ [] ∧
      setMeanAndVariance [1, 2, 3] 0 = some (2, 2 / 3) := by
  refine ⟨by simp, ?_⟩
  rw [(C2_setMeanAndVariance_population [1, 2, 3] 0 (by simp)).1]
  norm_num

/-- C3: for every radius `r ≥ 0`, `getDynamicNeighborhood r` returns exactly
`(2 r + 1) ^ 2` offsets; radius `1` gives `9` offsets and radius `0` gives `1`. -/
theorem C3_getDynamicNeighborhood_length (r : Int) (h : 0 ≤ r) :
    ((getDynamicNeighborhood r).length : Int) = (2 * r + 1) ^ 2 ∧
      (getDynamicNeighborhood 1).length = 9 ∧ (getDynamicNeighborhood 0).length = 1 := by
  refine ⟨?_, by decide, by decide⟩
  rw [length_getDynamicNeighborhood, Nat.cast_mul, side_eq r h]
  ring

theorem C3_getDynamicNeighborhood_length_witness :
    (0 : Int) ≤ 2 ∧ ((getDynamicNeighborhood 2).length : Int) = (2 * 2 + 1) ^ 2 :=
  ⟨by decide, (C3_getDynamicNeighborhood_length 2 (by decide)).1⟩

/-- C4: for every radius `r ≥ 0`, `getDynamicNeighborhood r` is the row-major
enumeration of the square `[-r, r] x [-r, r]`: its `k`-th element (from `0`,
for `k < (2 r + 1) ^ 2`, and there is no further element) has first component
`-r + k / (2 r + 1)` and second component `-r + k mod (2 r + 1)`; every pair
with both components in `[-r, r]` occurs exactly once, no other pair occurs,
and the zero offset occurs exactly once. -/
theorem C4_getDynamicNeighborhood_row_major (r : Int) (h : 0 ≤ r) :
    (∀ k : Nat, (k : Int) < (2 * r + 1) ^ 2 →
        (getDynamicNeighborhood r)[k]? =
          some ⟨-r + (k : Int) / (2 * r + 1), -r + (k : Int) % (2 * r + 1), 0⟩) ∧
      (∀ k : Nat, (2 * r + 1) ^ 2 ≤ (k : Int) → (getDynamicNeighborhood r)[k]? = none) ∧
      (∀ a b : Int, -r ≤ a → a ≤ r → -r ≤ b → b ≤ r →
        (getDynamicNeighborhood r).countP (fun o => decide (o.x = a ∧ o.y = b)) = 1) ∧
      (∀ o ∈ getDynamicNeighborhood r, -r ≤ o.x ∧ o.x ≤ r ∧ -r ≤ o.y ∧ o.y ≤ r) ∧
      (getDynamicNeighborhood r).count ⟨0, 0, 0⟩ = 1 := by
  have hside := side_eq r h
  have hsq : ((side r * side r : Nat) : Int) = (2 * r + 1) ^ 2 := by
    rw [Nat.cast_mul, hside]; ring
  refine ⟨?_, ?_, ?_, ?_, ?_⟩
  · intro k hk
    have hk' : k < side r * side r := by
      have : (k : Int) < ((side r * side r : Nat) : Int) := by rw [hsq]; exact hk
      exact_mod_cast this
    rw [getDynamicNeighborhood_getElem? r k hk', Int.natCast_div, Int.natCast_mod, hside]
    simp
  · intro k hk
    apply List.getElem?_eq_none
    rw [length_getDynamicNeighborhood]
    have : ((side r * side r : Nat) : Int) ≤ (k : Int) := by rw [hsq]; exact hk
    exact_mod_cast this
  · intro a b ha1 ha2 hb1 hb2
    exact countP_pair_getDynamicNeighborhood r a b h ha1 ha2 hb1 hb2
  · intro o ho
    obtain ⟨h1, h2, h3, h4, _⟩ := (mem_getDynamicNeighborhood r o).mp ho
    exact ⟨h1, h2, h3, h4⟩
  · rw [← countP_pair_getDynamicNeighborhood r 0 0 h (by omega) h (by omega) h]
    unfold List.count
    apply List.countP_congr
    intro o ho
    obtain ⟨_, _, _, _, hz⟩ := (mem_getDynamicNeighborhood r o).mp ho
    obtain ⟨ox, oy, oz⟩ := o
    simp only at hz
    simp [hz]

theorem C4_getDynamicNeighborhood_row_major_witness :
    (0 : Int) ≤ 1 ∧
      (getDynamicNeighborhood 1)[5]? = some ⟨-1 + 5 / (2 * 1 + 1), -1 + 5 % (2 * 1 + 1), 0⟩ ∧
      (getDynamicNeighborhood 1).count ⟨0, 0, 0⟩ = 1 :=
  ⟨by decide, (C4_getDynamicNeighborhood_row_major 1 (by decide)).1 5 (by decide),
    (C4_getDynamicNeighborhood_row_major 1 (by decide)).2.2.2.2⟩

/-- C5: for every offset list and every centre inside the input image,
`getPixelValuesFromNeighborhood` returns a vector of the length of the offset
list whose `i`-th element is the image value at centre + `i`-th offset, an
out-of-extent position being replaced by the clamp-to-nearest-valid-voxel
position; the position read always lies inside the image, so a defined value
is returned for every offset. -/
theorem C5_getPixelValuesFromNeighborhood_samples (img : ImageType) (center : IndexType)
    (offsets : List OffsetType) (hc : img.inside center) :
    (getPixelValuesFromNeighborhood offsets ⟨img, center⟩).length = offsets.length ∧
      ∀ (i : Nat) (o : OffsetType), offsets[i]? = some o →
        img.inside (clampIndex img (center.add o)) ∧
        (getPixelValuesFromNeighborhood offsets ⟨img, center⟩)[i]? =
          some (img.pix (clampIndex img (center.add o))) ∧
        (img.inside (center.add o) →
          (getPixelValuesFromNeighborhood offsets ⟨img, center⟩)[i]? =
            some (img.pix (center.add o))) := by
  rw [getPixelValuesFromNeighborhood_eq_map]
  refine ⟨List.length_map _ _, ?_⟩
  intro i o ho
  have hval : (offsets.map (NeighborhoodIteratorType.GetPixel ⟨img, center⟩))[i]? =
      some (img.pix (clampIndex img (center.add o))) := by
    rw [List.getElem?_map, ho]; rfl
  obtain ⟨h1, h2, h3, h4, h5, h6⟩ := hc
  refine ⟨clampIndex_inside img _ (by omega) (by omega) (by omega), hval, ?_⟩
  intro hin
  rw [hval, clampIndex_of_inside img _ hin]

theorem C5_getPixelValuesFromNeighborhood_samples_witness :
    cube3.inside ⟨0, 1, 2⟩ ∧
      getPixelValuesFromNeighborhood [⟨-1, 0, 0⟩, ⟨1, 1, 0⟩] ⟨cube3, ⟨0, 1, 2⟩⟩ =
        [cube3.pix ⟨0, 1, 2⟩, cube3.pix ⟨1, 2, 2⟩] := by
  have h := C5_getPixelValuesFromNeighborhood_samples cube3 ⟨0, 1, 2⟩
    [⟨-1, 0, 0⟩, ⟨1, 1, 0⟩] (by decide)
  refine ⟨by decide, ?_⟩
  apply List.ext_getElem?
  intro i
  match i with
  | 0 => rw [(h.2 0 ⟨-1, 0, 0⟩ rfl).2.1]; rfl
  | 1 => rw [(h.2 1 ⟨1, 1, 0⟩ rfl).2.1]; rfl
  | i + 2 => simp [getPixelValuesFromNeighborhood]

theorem samplesAt_eq_map_of_cubeInside (img : ImageType) (r : Int) (p : IndexType)
    (hp : cubeInside img r p) :
    samplesAt img r p = (getDynamicNeighborhood r).map fun o => img.pix (p.add o) := by
  unfold samplesAt
  rw [getPixelValuesFromNeighborhood_eq_map]
  apply List.map_congr_left
  intro o ho
  obtain ⟨h1, h2, h3, h4, h5⟩ := (mem_getDynamicNeighborhood r o).mp ho
  obtain ⟨c1, c2, c3, c4, c5, c6⟩ := hp
  have hin : img.inside (p.add o) := by
    simp only [ImageType.inside, IndexType.add]
    omega
  simp only [NeighborhoodIteratorType.GetPixel, clampIndex_of_inside img _ hin]

/-- C6, as the code has it: for every radius `r ≥ 0`, the sample vector
gathered at a voxel whose full neighbourhood lies inside the image has exactly
`(2 r + 1) ^ 2` elements, which is not `(2 r + 1) ^ 3` once `r ≥ 1`: the offsets
of `getDynamicNeighborhood` are exactly the `(i, j, 0)` with `i`, `j` in
`[-r, r]`, the square window of the voxel's own slice with the centre, and the
samples are the image values at the voxel plus these offsets. -/
theorem C6_samples_cover_square_window (img : ImageType) (r : Int) (p : IndexType)
    (hr : 0 ≤ r) (hp : cubeInside img r p) :
    ((samplesAt img r p).length : Int) = (2 * r + 1) ^ 2 ∧
      (0 < r → ((samplesAt img r p).length : Int) ≠ (2 * r + 1) ^ 3) ∧
      (∀ o : OffsetType, o ∈ getDynamicNeighborhood r ↔
        -r ≤ o.x ∧ o.x ≤ r ∧ -r ≤ o.y ∧ o.y ≤ r ∧ o.z = 0) ∧
      (⟨0, 0, 0⟩ : OffsetType) ∈ getDynamicNeighborhood r ∧
      samplesAt img r p = (getDynamicNeighborhood r).map fun o => img.pix (p.add o) := by
  have hlen : ((samplesAt img r p).length : Int) = (2 * r + 1) ^ 2 := by
    rw [length_samplesAt, Nat.cast_mul, side_eq r hr]; ring
  refine ⟨hlen, ?_, mem_getDynamicNeighborhood r, ?_, samplesAt_eq_map_of_cubeInside img r p hp⟩
  · intro hpos heq
    rw [hlen] at heq
    have h2 : (2 * r + 1) ^ 3 - (2 * r + 1) ^ 2 = (2 * r + 1) ^ 2 * (2 * r) := by ring
    have h3 : 0 < (2 * r + 1) ^ 2 * (2 * r) := by positivity
    omega
  · rw [mem_getDynamicNeighborhood]
    simp only [and_true]
    omega

theorem C6_samples_cover_square_window_witness :
    (0 : Int) ≤ 1 ∧ cubeInside cube3 1 ⟨1, 1, 1⟩ ∧
      ((samplesAt cube3 1 ⟨1, 1, 1⟩).length : Int) = (2 * 1 + 1) ^ 2 :=
  ⟨by decide, by decide,
    (C6_samples_cover_square_window cube3 1 ⟨1, 1, 1⟩ (by decide) (by decide)).1⟩

/-- C6 as stated fails: in the `3 x 3 x 3` image `cube3` the full neighbourhood
of radius `1` of the voxel `(1, 1, 1)` lies inside the image, and the sample
vector gathered there has `9` elements, not `(2 * 1 + 1) ^ 3 = 27`; the offset
`(0, 0, 1)` of the cubic window is not enumerated. -/
theorem C6_cubic_window_counterexample :
    cubeInside cube3 1 ⟨1, 1, 1⟩ ∧
      (samplesAt cube3 1 ⟨1, 1, 1⟩).length = 9 ∧
      ((samplesAt cube3 1 ⟨1, 1, 1⟩).length : Int) ≠ (2 * 1 + 1) ^ 3 ∧
      (⟨0, 0, 1⟩ : OffsetType) ∉ getDynamicNeighborhood 1 := by
  have hlen : (samplesAt cube3 1 ⟨1, 1, 1⟩).length = 9 := by
    rw [length_samplesAt]; decide
  refine ⟨by decide, hlen, ?_, by decide⟩
  rw [hlen]
  decide

/-- C7: for every radius `r ≥ 0` and every voxel whose sampled neighbourhood is
flat (all samples equal to some `c`), `setMeanAndVariance` returns the variance
`0`, the division by that variance in the filter loop is a division by zero
(no branch guards it), and the loop body and the filter loop take the error
branch at that voxel. -/
theorem C7_flat_neighbourhood_divides_by_zero (img : ImageType) (r : Int)
    (noiseVariance uninit c : PixelType) (p : IndexType)
    (hr : 0 ≤ r) (hp : img.inside p) (hflat : ∀ v ∈ samplesAt img r p, v = c) :
    setMeanAndVariance (samplesAt img r p) uninit = some (c, 0) ∧
      attenuation 0 noiseVariance = none ∧
      loopBody r noiseVariance ⟨img, p⟩ uninit = none ∧
      (∀ w : Option PixelType, (p, w) ∈ filterLoop img r noiseVariance uninit ↔ w = none) := by
  have hs := setMeanAndVariance_const (samplesAt img r p) uninit c
    (samplesAt_ne_nil img r p hr) hflat
  have hb : loopBody r noiseVariance ⟨img, p⟩ uninit = none := by
    rw [loopBody_eq r noiseVariance uninit c 0 img p hs, weiner_zero]
  refine ⟨hs, by simp [attenuation, gdiv], hb, ?_⟩
  intro w
  rw [mem_filterLoop, hb]
  exact ⟨fun h => h.2, fun h => ⟨hp, h⟩⟩

theorem samplesAt_outlier5_corner :
    samplesAt outlier5 1 ⟨0, 0, 0⟩ = [10, 10, 10, 10, 10, 10, 10, 10, 10] := by
  simp [samplesAt, getPixelValuesFromNeighborhood, getDynamicNeighborhood, forUpTo, forLoop,
    NeighborhoodIteratorType.GetPixel, clampIndex, clampAxis, IndexType.add, outlier5]

theorem C7_flat_neighbourhood_divides_by_zero_witness :
    (0 : Int) ≤ 1 ∧ outlier5.inside ⟨0, 0, 0⟩ ∧
      (∀ v ∈ samplesAt outlier5 1 ⟨0, 0, 0⟩, v = 10) ∧
      loopBody 1 1 ⟨outlier5, ⟨0, 0, 0⟩⟩ 0 = none :=
  ⟨by decide, by decide, by rw [samplesAt_outlier5_corner]; simp,
    (C7_flat_neighbourhood_divides_by_zero outlier5 1 1 0 10 ⟨0, 0, 0⟩ (by decide) (by decide)
      (by rw [samplesAt_outlier5_corner]; simp)).2.2.1⟩

/-- C8: for every value `c` and every non-empty sample vector all of whose
elements equal `c`, `setMeanAndVariance` yields mean `c` and variance `0`. -/
theorem C8_setMeanAndVariance_constant (c uninit : PixelType) (vector : List PixelType)
    (h : vector ≠ []) (hc : ∀ v ∈ vector, v = c) :
    setMeanAndVariance vector uninit = some (c, 0) :=
  setMeanAndVariance_const vector uninit c h hc

theorem C8_setMeanAndVariance_constant_witness :
    ([7, 7, 7] : List PixelType) ≠ [] ∧ (∀ v ∈ ([7, 7, 7] : List PixelType), v = 7) ∧
      setMeanAndVariance [7, 7, 7] 3 = some (7, 0) :=
  ⟨by simp, by simp, C8_setMeanAndVariance_constant 7 3 [7, 7, 7] (by simp) (by simp)⟩

/-- C9: when `variance = noiseVariance` and `variance ≠ 0`, the attenuation
factor `(variance - noiseVariance) / variance` is `0` and the output of the
filter loop's formula is `mean`. -/
theorem C9_variance_eq_noise_gives_mean (mean centerValue variance noiseVariance : PixelType)
    (h : variance = noiseVariance) (hv : variance ≠ 0) :
    attenuation variance noiseVariance = some 0 ∧
      weiner mean variance noiseVariance centerValue = some mean := by
  subst h
  simp [weiner, attenuation, gdiv, hv]

theorem C9_variance_eq_noise_gives_mean_witness :
    (4 : PixelType) = 4 ∧ (4 : PixelType) ≠ 0 ∧ weiner 3 4 4 9 = some 3 :=
  ⟨rfl, by norm_num, (C9_variance_eq_noise_gives_mean 3 9 4 4 rfl (by norm_num)).2⟩

/-- C10: for `noiseVariance ≥ 0` and `variance > 0` the Wiener formula returns
an output with
`output - centerValue = -(noiseVariance / variance) * (centerValue - mean)`;
hence for every `eps > 0` with `noiseVariance ≤ eps * variance`,
`|output - centerValue| ≤ eps * |centerValue - mean|`. -/
theorem C10_output_near_center (mean centerValue noiseVariance variance : PixelType)
    (hn : 0 ≤ noiseVariance) (hv : 0 < variance) :
    ∃ output : PixelType,
      weiner mean variance noiseVariance centerValue = some output ∧
      output - centerValue = -(noiseVariance / variance) * (centerValue - mean) ∧
      ∀ eps : PixelType, 0 < eps → noiseVariance ≤ eps * variance →
        |output - centerValue| ≤ eps * |centerValue - mean| := by
  have hv0 : variance ≠ 0 := ne_of_gt hv
  have heq : mean + ((variance - noiseVariance) / variance) * (centerValue - mean) - centerValue =
      -(noiseVariance / variance) * (centerValue - mean) := by
    field_simp
    ring
  refine ⟨_, weiner_of_ne_zero mean variance noiseVariance centerValue hv0, heq, ?_⟩
  intro eps _ hle
  rw [heq, abs_mul, abs_neg, abs_of_nonneg (div_nonneg hn (le_of_lt hv))]
  exact mul_le_mul_of_nonneg_right ((div_le_iff₀ hv).mpr hle) (abs_nonneg _)

theorem C10_output_near_center_witness :
    (0 : PixelType) ≤ 1 ∧ (0 : PixelType) < 100 ∧
      ∃ output : PixelType, weiner 10 100 1 50 = some output ∧
        output - 50 = -(1 / 100) * (50 - 10) ∧
        ∀ eps : PixelType, 0 < eps → 1 ≤ eps * 100 → |output - 50| ≤ eps * |50 - 10| :=
  ⟨by norm_num, by norm_num, C10_output_near_center 10 50 1 100 (by norm_num) (by norm_num)⟩

/-! ## The outlier image -/

theorem samplesAt_outlier5_centre :
    samplesAt outlier5 1 ⟨2, 2, 0⟩ = [10, 10, 10, 10, 100, 10, 10, 10, 10] := by
  simp [samplesAt, getPixelValuesFromNeighborhood, getDynamicNeighborhood, forUpTo, forLoop,
    NeighborhoodIteratorType.GetPixel, clampIndex, clampAxis, IndexType.add, outlier5]

theorem setMeanAndVariance_outlier5_centre (uninit : PixelType) :
    setMeanAndVariance (samplesAt outlier5 1 ⟨2, 2, 0⟩) uninit = some (20, 800) := by
  rw [samplesAt_outlier5_centre, setMeanAndVariance_eq _ uninit (by simp)]
  norm_num

theorem samplesAt_outlier5_border (p : IndexType) (hp : outlier5.inside p)
    (hb : p.x = 0 ∨ p.x = 4 ∨ p.y = 0 ∨ p.y = 4) :
    ∀ v ∈ samplesAt outlier5 1 p, v = 10 := by
  intro v hv
  unfold samplesAt at hv
  rw [getPixelValuesFromNeighborhood_eq_map, List.mem_map] at hv
  obtain ⟨o, ho, rfl⟩ := hv
  obtain ⟨h1, h2, h3, h4, _⟩ := (mem_getDynamicNeighborhood 1 o).mp ho
  obtain ⟨a1, a2, a3, a4, _, _⟩ := hp
  have a2' : p.x < 5 := a2
  have a4' : p.y < 5 := a4
  have hne : ¬ (clampAxis (p.x + o.x) 5 = 2 ∧ clampAxis (p.y + o.y) 5 = 2) := by
    unfold clampAxis
    omega
  simp only [NeighborhoodIteratorType.GetPixel, outlier5, clampIndex, IndexType.add]
  rw [if_neg hne]

/-- C11: in the `5 x 5` single-slice image with every pixel `10` except the
centre pixel `(2, 2) = 100`, filtered with `windowRadius = 1` and
`noiseVariance = 1`, the value the filter loop stores at the centre pixel is
`999 / 10`, which lies strictly between `10` and `100`. -/
theorem C11_outlier_between (uninit : PixelType) :
    loopBody 1 1 ⟨outlier5, ⟨2, 2, 0⟩⟩ uninit = some (999 / 10) ∧
      (⟨2, 2, 0⟩, some (999 / 10)) ∈ filterLoop outlier5 1 1 uninit ∧
      (10 : PixelType) < 999 / 10 ∧ (999 / 10 : PixelType) < 100 := by
  have hb : loopBody 1 1 ⟨outlier5, ⟨2, 2, 0⟩⟩ uninit = some (999 / 10) := by
    rw [loopBody_eq 1 1 uninit 20 800 outlier5 ⟨2, 2, 0⟩
      (setMeanAndVariance_outlier5_centre uninit), weiner_of_ne_zero _ _ _ _ (by norm_num)]
    simp only [outlier5]
    norm_num
  refine ⟨hb, ?_, by norm_num, by norm_num⟩
  rw [mem_filterLoop, hb]
  exact ⟨by decide, rfl⟩

theorem loopBody_outlier5_border (p : IndexType) (uninit : PixelType)
    (hp : outlier5.inside p) (hb : p.x = 0 ∨ p.x = 4 ∨ p.y = 0 ∨ p.y = 4) :
    loopBody 1 1 ⟨outlier5, p⟩ uninit = none := by
  have hs : setMeanAndVariance (samplesAt outlier5 1 p) uninit = some (10, 0) :=
    setMeanAndVariance_const _ uninit 10 (samplesAt_ne_nil outlier5 1 p (by decide))
      (samplesAt_outlier5_border p hp hb)
  rw [loopBody_eq 1 1 uninit 10 0 outlier5 p hs, weiner_zero]

/-- C12, the code at the failing input: in the same image every one of the
sixteen border pixels has a flat neighbourhood under clamp-to-edge sampling
(mean `10`, variance `0`), and the filter loop divides by that variance: the
value stored is the result of a division by zero, not `10`. -/
theorem C12_border_pixels_divide_by_zero :
    setMeanAndVariance (samplesAt outlier5 1 ⟨0, 0, 0⟩) 0 = some (10, 0) ∧
      weiner 10 0 1 (outlier5.pix ⟨0, 0, 0⟩) = none ∧
      loopBody 1 1 ⟨outlier5, ⟨0, 0, 0⟩⟩ 0 = none ∧
      loopBody 1 1 ⟨outlier5, ⟨0, 0, 0⟩⟩ 0 ≠ some 10 ∧
      ((filterLoop outlier5 1 1 0).filter fun w =>
          decide (w.1.x = 0 ∨ w.1.x = 4 ∨ w.1.y = 0 ∨ w.1.y = 4)).map Prod.snd =
        List.replicate 16 none := by
  have hs : setMeanAndVariance (samplesAt outlier5 1 ⟨0, 0, 0⟩) 0 = some (10, 0) :=
    setMeanAndVariance_const _ 0 10 (samplesAt_ne_nil outlier5 1 ⟨0, 0, 0⟩ (by decide))
      (samplesAt_outlier5_border ⟨0, 0, 0⟩ (by decide) (Or.inl rfl))
  have hb : loopBody 1 1 ⟨outlier5, ⟨0, 0, 0⟩⟩ 0 = none := by
    rw [loopBody_eq 1 1 0 10 0 outlier5 ⟨0, 0, 0⟩ hs, weiner_zero]
  refine ⟨hs, weiner_zero _ _ _, hb, by rw [hb]; simp, ?_⟩
  rw [List.eq_replicate_iff]
  constructor
  · rw [List.length_map, filterLoop_eq_map, List.filter_map, List.length_map]
    decide
  · intro v hv
    obtain ⟨w, hw, rfl⟩ := List.mem_map.mp hv
    obtain ⟨hmem, hborder⟩ := List.mem_filter.mp hw
    obtain ⟨q, val⟩ := w
    obtain ⟨hin, hval⟩ := (mem_filterLoop outlier5 1 1 0 q val).mp hmem
    simp only [decide_eq_true_eq] at hborder
    simp only [hval]
    exact loopBody_outlier5_border q 0 hin hborder

/-! ## Coverage of the region -/

theorem length_regionPositions (img : ImageType) :
    (regionPositions img).length = img.sx * img.sy * img.sz := by
  unfold regionPositions
  simp only [flatMap_range_eq_map, List.length_map, List.length_range]
  ring

theorem nodup_regionPositions (img : ImageType) : (regionPositions img).Nodup := by
  unfold regionPositions
  rw [List.nodup_flatMap]
  constructor
  · intro k _
    rw [List.nodup_flatMap]
    constructor
    · intro j _
      apply List.Nodup.map _ (List.nodup_range _)
      intro a b hab
      simp only [IndexType.mk.injEq] at hab
      omega
    · apply List.Pairwise.imp _ (List.pairwise_lt_range _)
      intro a b hab
      simp only [Function.onFun, List.disjoint_left, List.mem_map, List.mem_range]
      rintro q ⟨i, _, rfl⟩ ⟨i2, _, h2⟩
      simp only [IndexType.mk.injEq] at h2
      omega
  · apply List.Pairwise.imp _ (List.pairwise_lt_range _)
    intro a b hab
    simp only [Function.onFun, List.disjoint_left, List.mem_flatMap, List.mem_map,
      List.mem_range]
    rintro q ⟨j, _, i, _, rfl⟩ ⟨j2, _, i2, _, h2⟩
    simp only [IndexType.mk.injEq] at h2
    omega

theorem map_fst_filterLoop (img : ImageType) (windowRadio : Int)
    (noiseVariance uninit : PixelType) :
    (filterLoop img windowRadio noiseVariance uninit).map Prod.fst = regionPositions img := by
  rw [filterLoop_eq_map, List.map_map]
  exact List.map_id _

/-- C13: for every image and every radius, the filter loop writes exactly one
value per position of the region, `W * H` values for a single-slice image of
size `W x H`: the positions written are the positions of the input, each
written once, none skipped and none outside the image. -/
theorem C13_filterLoop_covers_region (img : ImageType) (r : Int)
    (noiseVariance uninit : PixelType) :
    (filterLoop img r noiseVariance uninit).length = img.sx * img.sy * img.sz ∧
      (img.sz = 1 → (filterLoop img r noiseVariance uninit).length = img.sx * img.sy) ∧
      (∀ p : IndexType, img.inside p →
        ((filterLoop img r noiseVariance uninit).map Prod.fst).count p = 1) ∧
      (∀ p : IndexType, p ∈ (filterLoop img r noiseVariance uninit).map Prod.fst →
        img.inside p) := by
  have hlen : (filterLoop img r noiseVariance uninit).length = img.sx * img.sy * img.sz := by
    rw [← List.length_map (filterLoop img r noiseVariance uninit) Prod.fst, map_fst_filterLoop,
      length_regionPositions]
  refine ⟨hlen, ?_, ?_, ?_⟩
  · intro h1
    rw [hlen, h1, Nat.mul_one]
  · intro p hp
    rw [map_fst_filterLoop]
    exact List.count_eq_one_of_mem (nodup_regionPositions img)
      ((mem_regionPositions img p).mpr hp)
  · intro p hp
    rw [map_fst_filterLoop] at hp
    exact (mem_regionPositions img p).mp hp

theorem C13_filterLoop_covers_region_witness :
    (filterLoop outlier5 1 1 0).length = 5 * 5 ∧
      ((filterLoop outlier5 1 1 0).map Prod.fst).count ⟨4, 0, 0⟩ = 1 :=
  ⟨(C13_filterLoop_covers_region outlier5 1 1 0).2.1 rfl,
    (C13_filterLoop_covers_region outlier5 1 1 0).2.2.1 ⟨4, 0, 0⟩ (by decide)⟩

/-! ## Reachability of the empty vector and independence -/

theorem setMeanAndVariance_nil (uninit : PixelType) : setMeanAndVariance [] uninit = none := by
  simp [setMeanAndVariance, gdiv, accumulate]

theorem setMeanAndVariance_uninit (vector : List PixelType) (u1 u2 : PixelType) :
    setMeanAndVariance vector u1 = setMeanAndVariance vector u2 := by
  by_cases h : vector = []
  · rw [h, setMeanAndVariance_nil, setMeanAndVariance_nil]
  · rw [setMeanAndVariance_eq vector u1 h, setMeanAndVariance_eq vector u2 h]

theorem loopBody_eq_bind (windowRadio : Int) (noiseVariance uninit : PixelType)
    (img : ImageType) (p : IndexType) :
    loopBody windowRadio noiseVariance ⟨img, p⟩ uninit =
      (setMeanAndVariance (samplesAt img windowRadio p) uninit).bind fun mv =>
        weiner mv.1 mv.2 noiseVariance (img.pix p) := by
  cases h : setMeanAndVariance (samplesAt img windowRadio p) uninit with
  | none =>
    unfold samplesAt at h
    simp only [loopBody, h, Option.none_bind]
  | some mv =>
    obtain ⟨mean, variance⟩ := mv
    rw [loopBody_eq windowRadio noiseVariance uninit mean variance img p h, Option.some_bind]

/-- C14: for every radius `r ≥ 0` and every voxel, the sample vector the filter
loop passes to `setMeanAndVariance` has `(2 r + 1) ^ 2 ≥ 1` elements, so
`setMeanAndVariance` returns a mean and a variance there; the case `n = 0`, in
which the variance is `0 / 0`, is not reached from the loop. -/
theorem C14_empty_vector_unreachable (img : ImageType) (r : Int) (p : IndexType)
    (noiseVariance uninit : PixelType) (hr : 0 ≤ r) :
    samplesAt img r p ≠ [] ∧
      ((samplesAt img r p).length : Int) = (2 * r + 1) ^ 2 ∧
      1 ≤ (samplesAt img r p).length ∧
      (∃ mean variance : PixelType,
        setMeanAndVariance (samplesAt img r p) uninit = some (mean, variance)) ∧
      loopBody r noiseVariance ⟨img, p⟩ uninit =
        ((setMeanAndVariance (samplesAt img r p) uninit).bind fun mv =>
          weiner mv.1 mv.2 noiseVariance (img.pix p)) ∧
      setMeanAndVariance [] uninit = none := by
  have hne := samplesAt_ne_nil img r p hr
  refine ⟨hne, ?_, ?_, ⟨_, _, setMeanAndVariance_eq _ uninit hne⟩,
    loopBody_eq_bind r noiseVariance uninit img p, setMeanAndVariance_nil uninit⟩
  · rw [length_samplesAt, Nat.cast_mul, side_eq r hr]; ring
  · exact Nat.pos_of_ne_zero fun h0 => hne (List.length_eq_zero.mp h0)

theorem C14_empty_vector_unreachable_witness :
    (0 : Int) ≤ 0 ∧ samplesAt outlier5 0 ⟨4, 4, 0⟩ ≠ [] ∧
      1 ≤ (samplesAt outlier5 0 ⟨4, 4, 0⟩).length :=
  ⟨by decide, (C14_empty_vector_unreachable outlier5 0 ⟨4, 4, 0⟩ 1 0 (by decide)).1,
    (C14_empty_vector_unreachable outlier5 0 ⟨4, 4, 0⟩ 1 0 (by decide)).2.2.1⟩

theorem getDynamicNeighborhood_neg (r : Int) (hr : r < 0) : getDynamicNeighborhood r = [] := by
  apply List.eq_nil_of_length_eq_zero
  rw [length_getDynamicNeighborhood]
  have h0 : side r = 0 := by unfold side; omega
  rw [h0]

theorem add_zero_offset (p : IndexType) : p.add ⟨0, 0, 0⟩ = p := by
  cases p
  simp [IndexType.add]

theorem loopBody_congr (A B : ImageType) (r : Int) (noiseVariance uA uB : PixelType)
    (p : IndexType) (hs : samplesAt A r p = samplesAt B r p)
    (hc : 0 ≤ r → A.pix p = B.pix p) :
    loopBody r noiseVariance ⟨A, p⟩ uA = loopBody r noiseVariance ⟨B, p⟩ uB := by
  rw [loopBody_eq_bind, loopBody_eq_bind, hs, setMeanAndVariance_uninit _ uA uB]
  by_cases hr : 0 ≤ r
  · rw [hc hr]
  · have hnil : samplesAt B r p = [] := by
      unfold samplesAt
      rw [getDynamicNeighborhood_neg r (by omega)]
      rfl
    rw [hnil, setMeanAndVariance_nil]
    rfl

/-- C15: for every radius, noise variance and voxel `p`, and every two images
`A` and `B` of the same extent that agree at every position sampled for `p`
(`p` plus each offset, after the boundary policy), the value the filter loop
computes and stores at `p` is the same for `A` and for `B`: it depends on no
other input voxel, on no output voxel and not on the uninitialised local. -/
theorem C15_per_voxel_independence (A B : ImageType) (r : Int)
    (noiseVariance uA uB : PixelType) (p : IndexType)
    (hx : A.sx = B.sx) (hy : A.sy = B.sy) (hz : A.sz = B.sz) (hp : A.inside p)
    (hagree : ∀ o ∈ getDynamicNeighborhood r,
      A.pix (clampIndex A (p.add o)) = B.pix (clampIndex A (p.add o))) :
    loopBody r noiseVariance ⟨A, p⟩ uA = loopBody r noiseVariance ⟨B, p⟩ uB ∧
      ∀ w : Option PixelType,
        (p, w) ∈ filterLoop A r noiseVariance uA ↔ (p, w) ∈ filterLoop B r noiseVariance uB := by
  have hclamp : ∀ q : IndexType, clampIndex B q = clampIndex A q := by
    intro q
    simp only [clampIndex, hx, hy, hz]
  have hpB : B.inside p := by
    simp only [ImageType.inside, ← hx, ← hy, ← hz]
    exact hp
  have hs : samplesAt A r p = samplesAt B r p := by
    unfold samplesAt
    rw [getPixelValuesFromNeighborhood_eq_map, getPixelValuesFromNeighborhood_eq_map]
    apply List.map_congr_left
    intro o ho
    simp only [NeighborhoodIteratorType.GetPixel, hclamp]
    exact hagree o ho
  have hc : 0 ≤ r → A.pix p = B.pix p := by
    intro hr
    have h0 : (⟨0, 0, 0⟩ : OffsetType) ∈ getDynamicNeighborhood r := by
      rw [mem_getDynamicNeighborhood]
      simp only [and_true]
      omega
    have := hagree _ h0
    rwa [add_zero_offset, clampIndex_of_inside A p hp] at this
  have hb := loopBody_congr A B r noiseVariance uA uB p hs hc
  refine ⟨hb, ?_⟩
  intro w
  rw [mem_filterLoop, mem_filterLoop, hb]
  exact ⟨fun h => ⟨hpB, h.2⟩, fun h => ⟨hp, h.2⟩⟩

theorem C15_per_voxel_independence_witness :
    outlier5.inside ⟨2, 2, 0⟩ ∧
      loopBody 1 1 ⟨outlier5, ⟨2, 2, 0⟩⟩ 0 =
        loopBody 1 1 ⟨outlier5Corner, ⟨2, 2, 0⟩⟩ 3 :=
  ⟨by decide,
    (C15_per_voxel_independence outlier5 outlier5Corner 1 1 0 3 ⟨2, 2, 0⟩ rfl rfl rfl
      (by decide) (by decide)).1⟩

/-! ## Sign of the variance and range of the output -/

theorem sum_eq_zero_iff_of_nonneg :
    ∀ l : List PixelType, (∀ x ∈ l, 0 ≤ x) → (l.sum = 0 ↔ ∀ x ∈ l, x = 0) := by
  intro l
  induction l with
  | nil => simp
  | cons a l ih =>
    intro h
    have ha : 0 ≤ a := h a (List.mem_cons_self a l)
    have hl : ∀ x ∈ l, 0 ≤ x := fun x hx => h x (List.mem_cons_of_mem a hx)
    have hsum : 0 ≤ l.sum := List.sum_nonneg hl
    rw [List.sum_cons]
    constructor
    · intro h0
      have ha0 : a = 0 := by linarith
      have hl0 : l.sum = 0 := by linarith
      intro x hx
      rcases List.mem_cons.mp hx with rfl | hx
      · exact ha0
      · exact (ih hl).mp hl0 x hx
    · intro h0
      rw [h0 a (List.mem_cons_self a l), (ih hl).mpr fun x hx => h0 x (List.mem_cons_of_mem a hx)]
      norm_num

theorem weiner_eq_none_iff (mean variance noiseVariance currentPixel : PixelType) :
    weiner mean variance noiseVariance currentPixel = none ↔ variance = 0 := by
  by_cases hv : variance = 0
  · simp [weiner, attenuation, gdiv, hv]
  · simp [weiner, attenuation, gdiv, hv]

/-- C17: on every non-empty sample vector the variance computed by
`setMeanAndVariance` is `≥ 0`, and it is `0` if and only if all elements of
the vector are equal; hence the division of the filter loop by that variance
has a zero divisor exactly on flat neighbourhoods. -/
theorem C17_variance_nonneg_zero_iff_flat (vector : List PixelType) (uninit : PixelType)
    (h : vector ≠ []) :
    ∃ mean variance : PixelType,
      setMeanAndVariance vector uninit = some (mean, variance) ∧
      0 ≤ variance ∧
      (variance = 0 ↔ ∀ a ∈ vector, ∀ b ∈ vector, a = b) ∧
      (∀ noiseVariance currentPixel : PixelType,
        weiner mean variance noiseVariance currentPixel = none ↔
          ∀ a ∈ vector, ∀ b ∈ vector, a = b) ∧
      (∀ (img : ImageType) (r : Int) (p : IndexType) (noiseVariance : PixelType),
        samplesAt img r p = vector →
          (loopBody r noiseVariance ⟨img, p⟩ uninit = none ↔
            ∀ a ∈ vector, ∀ b ∈ vector, a = b)) := by
  have hlen : vector.length ≠ 0 := fun h0 => h (List.length_eq_zero.mp h0)
  have hq : (0 : PixelType) < (vector.length : PixelType) := by
    exact_mod_cast Nat.pos_of_ne_zero hlen
  have hnonneg : ∀ x ∈ vector.map (fun value =>
      (value - vector.sum / (vector.length : PixelType)) ^ 2), 0 ≤ x := by
    intro x hx
    obtain ⟨v, _, rfl⟩ := List.mem_map.mp hx
    positivity
  have hiff : (vector.map fun value =>
      (value - vector.sum / (vector.length : PixelType)) ^ 2).sum / (vector.length : PixelType) = 0 ↔
      ∀ a ∈ vector, ∀ b ∈ vector, a = b := by
    rw [div_eq_zero_iff, sum_eq_zero_iff_of_nonneg _ hnonneg]
    constructor
    · rintro (h0 | h0)
      · have hm : ∀ a ∈ vector, a = vector.sum / (vector.length : PixelType) := by
          intro a ha
          have := h0 _ (List.mem_map.mpr ⟨a, ha, rfl⟩)
          have h2 := pow_eq_zero_iff (n := 2) (by norm_num) |>.mp this
          linarith
        intro a ha b hb
        rw [hm a ha, hm b hb]
      · exact absurd h0 (ne_of_gt hq)
    · intro hflat
      left
      obtain ⟨c, hc⟩ := List.exists_mem_of_ne_nil vector h
      have hall : ∀ v ∈ vector, v = c := fun v hv => hflat v hv c hc
      have hmean : vector.sum / (vector.length : PixelType) = c := by
        rw [sum_eq_of_forall_eq c vector hall]; field_simp
      intro x hx
      obtain ⟨v, hv, rfl⟩ := List.mem_map.mp hx
      rw [hmean, hall v hv]; ring
  refine ⟨_, _, setMeanAndVariance_eq vector uninit h, ?_, hiff, ?_, ?_⟩
  · exact div_nonneg (List.sum_nonneg hnonneg) (le_of_lt hq)
  · intro noiseVariance currentPixel
    rw [weiner_eq_none_iff, hiff]
  · intro img r p noiseVariance hsamples
    rw [loopBody_eq r noiseVariance uninit _ _ img p
      (by rw [hsamples]; exact setMeanAndVariance_eq vector uninit h), weiner_eq_none_iff, hiff]

theorem C17_variance_nonneg_zero_iff_flat_witness :
    ([1, 2, 3] : List PixelType) ≠ [] ∧
      ∃ mean variance : PixelType,
        setMeanAndVariance [1, 2, 3] 0 = some (mean, variance) ∧ 0 ≤ variance := by
  obtain ⟨m, v, h1, h2, _⟩ := C17_variance_nonneg_zero_iff_flat [1, 2, 3] 0 (by simp)
  exact ⟨by simp, m, v, h1, h2⟩

/-- C18: for `variance > 0` and `0 ≤ noiseVariance ≤ variance`, the Wiener
output lies between `mean` and `centerValue` inclusive; with
`noiseVariance = 0` the output is `centerValue`. -/
theorem C18_output_between_mean_and_center
    (mean centerValue variance noiseVariance : PixelType)
    (hv : 0 < variance) (h0 : 0 ≤ noiseVariance) (h1 : noiseVariance ≤ variance) :
    (∃ output : PixelType,
      weiner mean variance noiseVariance centerValue = some output ∧
      min mean centerValue ≤ output ∧ output ≤ max mean centerValue) ∧
      weiner mean variance 0 centerValue = some centerValue := by
  have hv0 : variance ≠ 0 := ne_of_gt hv
  have hf0 : 0 ≤ (variance - noiseVariance) / variance :=
    div_nonneg (by linarith) (le_of_lt hv)
  have hf1 : (variance - noiseVariance) / variance ≤ 1 := by
    rw [div_le_one hv]; linarith
  refine ⟨⟨_, weiner_of_ne_zero mean variance noiseVariance centerValue hv0, ?_, ?_⟩, ?_⟩
  · rcases le_total mean centerValue with hle | hle
    · rw [min_eq_left hle]
      have : 0 ≤ (variance - noiseVariance) / variance * (centerValue - mean) :=
        mul_nonneg hf0 (by linarith)
      linarith
    · rw [min_eq_right hle]
      nlinarith
  · rcases le_total mean centerValue with hle | hle
    · rw [max_eq_right hle]
      nlinarith
    · rw [max_eq_left hle]
      have : 0 ≤ (variance - noiseVariance) / variance * (mean - centerValue) :=
        mul_nonneg hf0 (by linarith)
      nlinarith
  · rw [weiner_of_ne_zero mean variance 0 centerValue hv0, sub_zero, div_self hv0]
    congr 1
    ring

theorem C18_output_between_mean_and_center_witness :
    (0 : PixelType) < 4 ∧ (0 : PixelType) ≤ 1 ∧ (1 : PixelType) ≤ 4 ∧
      weiner 10 4 0 20 = some 20 :=
  ⟨by norm_num, by norm_num, by norm_num,
    (C18_output_between_mean_and_center 10 20 4 1 (by norm_num) (by norm_num)
      (by norm_num)).2⟩

/-- C19: the attenuation factor is not clamped at zero: for
`centerValue ≠ mean` and `0 < variance < noiseVariance` the factor
`(variance - noiseVariance) / variance` is negative and the Wiener output lies
strictly on the other side of `mean` from `centerValue`, outside the interval
between `mean` and `centerValue`. -/
theorem C19_factor_not_clamped (mean centerValue variance noiseVariance : PixelType)
    (hne : centerValue ≠ mean) (hv : 0 < variance) (hlt : variance < noiseVariance) :
    ∃ factor output : PixelType,
      attenuation variance noiseVariance = some factor ∧ factor < 0 ∧
      weiner mean variance noiseVariance centerValue = some output ∧
      (mean < centerValue → output < mean) ∧
      (centerValue < mean → mean < output) ∧
      (output < min mean centerValue ∨ max mean centerValue < output) := by
  have hv0 : variance ≠ 0 := ne_of_gt hv
  have hf : (variance - noiseVariance) / variance < 0 :=
    div_neg_of_neg_of_pos (by linarith) hv
  have hup : mean < centerValue →
      mean + (variance - noiseVariance) / variance * (centerValue - mean) < mean := by
    intro hlt'
    have : (variance - noiseVariance) / variance * (centerValue - mean) < 0 :=
      mul_neg_of_neg_of_pos hf (by linarith)
    linarith
  have hdown : centerValue < mean →
      mean < mean + (variance - noiseVariance) / variance * (centerValue - mean) := by
    intro hlt'
    have : 0 < (variance - noiseVariance) / variance * (centerValue - mean) :=
      mul_pos_of_neg_of_neg hf (by linarith)
    linarith
  refine ⟨_, _, by simp [attenuation, gdiv, hv0], hf,
    weiner_of_ne_zero mean variance noiseVariance centerValue hv0, hup, hdown, ?_⟩
  rcases lt_or_gt_of_ne hne with hlt' | hgt
  · right
    rw [max_eq_left (le_of_lt hlt')]
    exact hdown hlt'
  · left
    rw [min_eq_left (le_of_lt hgt)]
    exact hup hgt

theorem C19_factor_not_clamped_witness :
    (20 : PixelType) ≠ 10 ∧ (0 : PixelType) < 1 ∧ (1 : PixelType) < 2 ∧
      ∃ factor output : PixelType,
        attenuation 1 2 = some factor ∧ factor < 0 ∧
        weiner 10 1 2 20 = some output ∧
        ((10 : PixelType) < 20 → output < 10) ∧
        ((20 : PixelType) < 10 → 10 < output) ∧
        (output < min 10 20 ∨ max 10 20 < output) :=
  ⟨by norm_num, by norm_num, by norm_num,
    C19_factor_not_clamped 10 20 1 2 (by norm_num) (by norm_num) (by norm_num)⟩

/-- C20: for every radius, every offset returned by `getDynamicNeighborhood`
has third component `0`, so every position sampled for a voxel lies in the
voxel's own slice; for two images of the same extent that agree on the slice
of `p`, the sample vector and the value the filter loop computes at `p` are
the same. -/
theorem C20_samples_stay_in_slice (A B : ImageType) (r : Int)
    (noiseVariance uA uB : PixelType) (p : IndexType)
    (hx : A.sx = B.sx) (hy : A.sy = B.sy) (hz : A.sz = B.sz) (hp : A.inside p)
    (hslice : ∀ q : IndexType, q.z = p.z → A.pix q = B.pix q) :
    (∀ o ∈ getDynamicNeighborhood r, o.z = 0) ∧
      (∀ o ∈ getDynamicNeighborhood r, (clampIndex A (p.add o)).z = p.z) ∧
      samplesAt A r p = samplesAt B r p ∧
      loopBody r noiseVariance ⟨A, p⟩ uA = loopBody r noiseVariance ⟨B, p⟩ uB := by
  have hzero : ∀ o ∈ getDynamicNeighborhood r, o.z = 0 := fun o ho =>
    ((mem_getDynamicNeighborhood r o).mp ho).2.2.2.2
  have hsl : ∀ o ∈ getDynamicNeighborhood r, (clampIndex A (p.add o)).z = p.z := by
    intro o ho
    obtain ⟨_, _, _, _, h5, h6⟩ := hp
    simp only [clampIndex, IndexType.add, hzero o ho, add_zero]
    exact clampAxis_of_inside _ _ h5 h6
  have hclamp : ∀ q : IndexType, clampIndex B q = clampIndex A q := by
    intro q
    simp only [clampIndex, hx, hy, hz]
  have hs : samplesAt A r p = samplesAt B r p := by
    unfold samplesAt
    rw [getPixelValuesFromNeighborhood_eq_map, getPixelValuesFromNeighborhood_eq_map]
    apply List.map_congr_left
    intro o ho
    simp only [NeighborhoodIteratorType.GetPixel, hclamp]
    exact hslice _ (hsl o ho)
  exact ⟨hzero, hsl, hs,
    loopBody_congr A B r noiseVariance uA uB p hs fun _ => hslice p rfl⟩

theorem C20_samples_stay_in_slice_witness :
    cube3.inside ⟨1, 1, 1⟩ ∧
      loopBody 1 1 ⟨cube3, ⟨1, 1, 1⟩⟩ 0 = loopBody 1 1 ⟨cube3Slice, ⟨1, 1, 1⟩⟩ 0 :=
  ⟨by decide,
    (C20_samples_stay_in_slice cube3 cube3Slice 1 1 0 0 ⟨1, 1, 1⟩ rfl rfl rfl (by decide)
      (by intro q hq; simp only [cube3Slice, cube3]; rw [if_pos hq])).2.2.2⟩

/-! ## The command line -/

theorem length_filterLoop (img : ImageType) (r : Int) (noiseVariance uninit : PixelType) :
    (filterLoop img r noiseVariance uninit).length = img.sx * img.sy * img.sz := by
  rw [← List.length_map (filterLoop img r noiseVariance uninit) Prod.fst, map_fst_filterLoop,
    length_regionPositions]

theorem main_filtered (env : Collaborators) (argv : List String) (input : ImageType)
    (h5 : 5 ≤ argv.length) (hr : env.reader (argv.getD 1 "") = some input)
    (hi : env.neighborhoodIterator (env.atoi (argv.getD 3 "")) input = true)
    (ha : env.allocateOutput input = true) :
    (main env argv).filtered =
      filterLoop input (env.atoi (argv.getD 3 "")) (env.atof (argv.getD 4 "")) env.uninit := by
  have h : ¬ argv.length < 5 := by omega
  simp only [main, h, if_false, hr, hi, ha, Bool.not_true, Bool.false_eq_true]
  split <;> rfl

/-- C16, as the code has it: for every command line with a missing argument
(fewer than four user arguments) `main` returns a non-zero exit status before
the image reader is invoked and before any voxel is filtered.  A malformed
`windowRadius` or `noiseVariance` is not looked at before the read: with four
or more user arguments the reader is always invoked, whatever the text of the
arguments. -/
theorem C16_missing_arguments_exit (env : Collaborators) (argv : List String) :
    (argv.length < 5 →
        (main env argv).exitStatus = some EXIT_FAILURE ∧ EXIT_FAILURE ≠ 0 ∧
          (main env argv).readerInvoked = false ∧ (main env argv).filtered = []) ∧
      (5 ≤ argv.length → (main env argv).readerInvoked = true) := by
  refine ⟨?_, ?_⟩
  · intro h
    have hm : main env argv = ⟨some EXIT_FAILURE, false, [], false⟩ := by
      simp only [main, h, if_true]
    rw [hm]
    exact ⟨rfl, by decide, rfl, rfl⟩
  · intro h5
    have h : ¬ argv.length < 5 := by omega
    simp only [main, h, if_false]
    split
    · rfl
    · split
      · rfl
      · split
        · rfl
        · split <;> rfl

theorem C16_missing_arguments_exit_witness :
    ["AdaptativeWienerFilter", "in.png", "out.png"].length < 5 ∧
      (main cli0 ["AdaptativeWienerFilter", "in.png", "out.png"]).exitStatus =
        some EXIT_FAILURE ∧
      EXIT_FAILURE ≠ 0 ∧
      (main cli0 ["AdaptativeWienerFilter", "in.png", "out.png"]).readerInvoked = false ∧
      (main cli0 ["AdaptativeWienerFilter", "in.png", "out.png"]).filtered = [] :=
  ⟨by decide,
    (C16_missing_arguments_exit cli0 ["AdaptativeWienerFilter", "in.png", "out.png"]).1
      (by decide)⟩

/-- C16 as stated fails: on the command line
`AdaptativeWienerFilter in.png out.png abc 1` the argument `windowRadius` is
not a non-negative integer (`atoi` reads it as `0`), yet `main` invokes the
reader, filters all `25` voxels of the image read and returns the exit status
`0`. -/
theorem C16_malformed_radius_counterexample :
    wellFormedRadius "abc" = false ∧ atoi "abc" = 0 ∧ atof "1" = 1 ∧
      (main cli0 ["AdaptativeWienerFilter", "in.png", "out.png", "abc", "1"]).exitStatus
        = some 0 ∧
      (main cli0 ["AdaptativeWienerFilter", "in.png", "out.png", "abc", "1"]).readerInvoked
        = true ∧
      (main cli0 ["AdaptativeWienerFilter", "in.png", "out.png", "abc", "1"]).filtered.length
        = 25 := by
  refine ⟨by decide, by decide, ?_, by decide, by decide, ?_⟩
  · simp [atof, decimalValue, digitsValue, isspace]
  · rw [main_filtered cli0 _ outlier5 (by decide) rfl (by decide) rfl, length_filterLoop]
    rfl

end AdaptativeWienerFilter
